import Mathlib

/-!
Verification development for the OptiGen image-compressor core:
the target-size binary-search compression controller
(`iterativeCompressToTarget` in the main app component) and its batch
driver (`applyAutoToBatch`), together with the encoding wrapper
`compressImage` (lib/imageUtils.ts) and the analyzer wrapper
`analyzeImage` (services/aiService.ts).

The browser canvas codec (`canvas.toBlob`) is an opaque external
collaborator; it is modelled as an oracle mapping the full argument list
of an encoding request to either a blob byte size or a failure
(a rejected promise).  All numeric JS values are embedded as `Nat`/`Int`
where the source only ever holds integers, and as `Rat` where the source
computes fractional values (scale factors, percentages, progress).
-/

namespace OptiGen

/-- Crop rectangle in percentages of the source dimensions
(types.ts `CropArea`). -/
structure CropArea where
  x : ℚ
  y : ℚ
  width : ℚ
  height : ℚ
deriving DecidableEq

/-- Result of one `compressImage` invocation (types.ts `CompressionResult`).
The `blob`/`url` handles carry no logical content and are omitted. -/
structure CompressionResult where
  size : ℕ
  quality : ℕ
  reduction : ℚ
  width : ℤ
  height : ℤ
  format : String
deriving DecidableEq

/-- AI analysis payload (types.ts `AIAnalysis`). -/
structure AIAnalysis where
  description : String
  recommendedQuality : ℚ
  focusAreas : List String
  suggestedFormat : String
  complexityScore : ℚ
  savingsEstimate : String
  smartCropSuggestion : Option CropArea
deriving DecidableEq

/-- Per-item status (`ImageFile.status` in types.ts). -/
inductive ImageStatus where
  | idle
  | analyzing
  | optimizing
  | completed
  | error
deriving DecidableEq

/-- A queue item (types.ts `ImageFile`).  The `file` handle and
UI-only fields (`name`, `useSmartCrop`) carry no logic and are omitted;
`preview` is the object URL the Encoder reads pixels from. -/
structure ImageFile where
  id : ℕ
  preview : String
  size : ℕ
  type : String
  width : ℕ
  height : ℕ
  status : ImageStatus
  result : Option CompressionResult
  analysis : Option AIAnalysis
deriving DecidableEq

/-- Total blob-size oracle: arguments are the image source, quality,
detail preservation, optional target width/height, crop, strip flag and
the export format actually handed to `canvas.toBlob`. -/
def EncFun : Type :=
  String → ℕ → ℕ → Option ℤ → Option ℤ → Option CropArea → Bool → String → ℕ

/-- Fallible Encoder collaborator: `canvas.toBlob` viewed as a function
from the encoding request to a byte size, failing when the image cannot
be loaded or the blob is null (compressImage rejects). -/
def Encoder : Type :=
  String → ℕ → ℕ → Option ℤ → Option ℤ → Option CropArea → Bool → String →
    Except Unit ℕ

/-- An Encoder that always succeeds, from a total size function. -/
def pureEnc (f : EncFun) : Encoder :=
  fun p q d tw th c s fmt => .ok (f p q d tw th c s fmt)

/-- JS `Math.round` on nonnegative-orientation rationals:
round half toward positive infinity, i.e. `⌊x + 1/2⌋`. -/
def jsRound (q : ℚ) : ℤ :=
  Rat.floor (q + 1 / 2)

/-- Split a character list at every occurrence of the separator
(the semantics of JS `String.prototype.split` with a one-char separator). -/
def splitOnChar (c : Char) : List Char → List (List Char)
  | [] => [[]]
  | a :: as =>
    let r := splitOnChar c as
    if a = c then [] :: r
    else
      match r with
      | [] => [[a]]
      | h :: t => (a :: h) :: t

/-- JS `s.split('/')[1]`, with `""` standing for the out-of-range index
(never reached on the `image/...` MIME strings the code builds). -/
def mimeSubtype (s : String) : String :=
  match (splitOnChar '/' s.data).drop 1 with
  | [] => ""
  | h :: _ => String.mk h

/-- JS `toUpperCase` on the ASCII format names the code produces. -/
def upperAscii (s : String) : String :=
  String.mk (s.data.map Char.toUpper)

/-- The export format `canvas.toBlob` receives
(imageUtils.ts line 69: avif silently falls back to webp). -/
def exportOf (format : String) : String :=
  if format = "image/avif" then "image/webp" else format

/-- The `format` field compressImage stores:
`exportFormat.split('/')[1].toUpperCase()`. -/
def formatLabel (exportFormat : String) : String :=
  upperAscii (mimeSubtype exportFormat)

/-- The pure part of `compressImage` (imageUtils.ts lines 47-87): source
rectangle from the crop percentages, final canvas dimensions from the
(falsy-checked) target dimensions, and the stored result record, given
the blob size `n` the codec returned. -/
def mkResult (n : ℕ) (imgW imgH : ℕ) (quality : ℕ)
    (targetW targetH : Option ℤ) (crop : Option CropArea)
    (exportFormat : String) : CompressionResult :=
  let sW : ℚ := match crop with
    | some c => c.width * imgW / 100
    | none => (imgW : ℚ)
  let sH : ℚ := match crop with
    | some c => c.height * imgH / 100
    | none => (imgH : ℚ)
  let fW : ℚ := match targetW with
    | some w => if w = 0 then sW else (w : ℚ)
    | none => sW
  let fH : ℚ := match targetH with
    | some h => if h = 0 then sH else (h : ℚ)
    | none => sH
  { size := n
    quality := quality
    reduction := 0
    width := jsRound fW
    height := jsRound fH
    format := formatLabel exportFormat }

/-- `compressImage` (imageUtils.ts lines 33-91): rewrite avif to webp,
invoke the codec oracle, and package the result; a codec failure rejects. -/
def compressImage (enc : Encoder) (preview : String) (imgW imgH : ℕ)
    (quality : ℕ) (format : String) (detail : ℕ)
    (targetW targetH : Option ℤ) (crop : Option CropArea) (strip : Bool) :
    Except Unit CompressionResult :=
  let exportFormat := exportOf format
  match enc preview quality detail targetW targetH crop strip exportFormat with
  | .error e => .error e
  | .ok n => .ok (mkResult n imgW imgH quality targetW targetH crop exportFormat)

/-- Ghost record of one Encoder invocation made by the search
(the arguments `iterativeCompressToTarget` passes, and the size
that came back). -/
structure EncCall where
  quality : ℕ
  detail : ℕ
  targetW : Option ℤ
  targetH : Option ℤ
  format : String
  size : ℕ
deriving DecidableEq

/-- The format string the search passes to every `compressImage` call:
`image/${analysis.suggestedFormat || 'webp'}`. -/
def searchFmt (analysis : AIAnalysis) : String :=
  "image/" ++
    (if analysis.suggestedFormat = "" then "webp" else analysis.suggestedFormat)

/-- Stage 1 of `iterativeCompressToTarget` (part_000 lines 122-132):
quality bisection at native scale.  The `while (lowQ <= highQ)` loop is
embedded with a fuel parameter; the interval `[lowQ, highQ]` shrinks by
at least one each iteration, so fuel `86 = 90 + 1 - 5` can never be
exhausted while the loop guard holds, and the fuel-0 fallthrough is
unreachable from the initial state.  Besides the best attempt, the
embedding returns the ghost trace of Encoder calls made. -/
def stage1 (enc : Encoder) (img : ImageFile) (crop : Option CropArea)
    (fmt : String) (target : ℕ) :
    ℕ → ℕ → ℕ → Option CompressionResult →
      Except Unit (Option CompressionResult × List EncCall)
  | 0, _, _, best => .ok (best, [])
  | fuel + 1, lowQ, highQ, best =>
    if lowQ ≤ highQ then
      let midQ := (lowQ + highQ) / 2
      match compressImage enc img.preview img.width img.height midQ fmt 85
          none none crop true with
      | .error e => .error e
      | .ok res =>
        if res.size ≤ target then
          match stage1 enc img crop fmt target fuel (midQ + 1) highQ (some res) with
          | .error e => .error e
          | .ok (b, t) => .ok (b, ⟨midQ, 85, none, none, fmt, res.size⟩ :: t)
        else
          match stage1 enc img crop fmt target fuel lowQ (midQ - 1) best with
          | .error e => .error e
          | .ok (b, t) => .ok (b, ⟨midQ, 85, none, none, fmt, res.size⟩ :: t)
    else .ok (best, [])

/-- Stage 2 of `iterativeCompressToTarget` (part_000 lines 134-149):
scale bisection at fixed quality 40, a fixed 8-iteration for-loop. -/
def stage2 (enc : Encoder) (img : ImageFile) (crop : Option CropArea)
    (fmt : String) (target : ℕ) :
    ℕ → ℚ → ℚ → Option CompressionResult →
      Except Unit (Option CompressionResult × List EncCall)
  | 0, _, _, best => .ok (best, [])
  | iters + 1, lowS, highS, best =>
    let midS := (lowS + highS) / 2
    let tw := jsRound ((img.width : ℚ) * midS)
    let th := jsRound ((img.height : ℚ) * midS)
    match compressImage enc img.preview img.width img.height 40 fmt 80
        (some tw) (some th) crop true with
    | .error e => .error e
    | .ok res =>
      if res.size ≤ target then
        match stage2 enc img crop fmt target iters midS highS (some res) with
        | .error e => .error e
        | .ok (b, t) => .ok (b, ⟨40, 80, some tw, some th, fmt, res.size⟩ :: t)
      else
        match stage2 enc img crop fmt target iters lowS midS best with
        | .error e => .error e
        | .ok (b, t) => .ok (b, ⟨40, 80, some tw, some th, fmt, res.size⟩ :: t)

/-- Terminal output of one search, with the ghost traces of the Encoder
calls each stage made. -/
structure SearchTrace where
  result : Option CompressionResult
  s1calls : List EncCall
  s2calls : List EncCall
deriving DecidableEq

/-- `iterativeCompressToTarget` (part_000 lines 117-152): Stage 1
quality bisection over `[5, 90]`, then — exactly under the source guard
`!bestRes || bestRes.size > target` — Stage 2 scale bisection over
`[0.05, 0.95]` for 8 iterations. -/
def iterativeCompressToTarget (enc : Encoder) (img : ImageFile)
    (analysis : AIAnalysis) (target : ℕ) : Except Unit SearchTrace :=
  let fmt := searchFmt analysis
  let crop := analysis.smartCropSuggestion
  match stage1 enc img crop fmt target 86 5 90 none with
  | .error e => .error e
  | .ok (best1, t1) =>
    let runS2 : Bool := match best1 with
      | none => true
      | some r => decide (target < r.size)
    if runS2 then
      match stage2 enc img crop fmt target 8 (1 / 20) (19 / 20) best1 with
      | .error e => .error e
      | .ok (b2, t2) => .ok ⟨b2, t1, t2⟩
    else .ok ⟨best1, t1, []⟩

/-- The hard-coded default analysis `analyzeImage` falls back to on any
Analyzer failure (aiService.ts lines 54-65). -/
def defaultAnalysis : AIAnalysis :=
  { description := "Generic subject."
    recommendedQuality := 75
    focusAreas := ["Subject"]
    suggestedFormat := "webp"
    complexityScore := 5
    savingsEstimate := "40%"
    smartCropSuggestion := some ⟨0, 0, 100, 100⟩ }

/-- `analyzeImage` (aiService.ts): the remote Gemini call is the oracle
`raw`; any failure inside the try block is absorbed and replaced by the
hard-coded default, so the wrapper itself is total. -/
def analyzeImage (raw : String → String → Except Unit AIAnalysis)
    (b64 mime : String) : AIAnalysis :=
  match raw b64 mime with
  | .ok a => a
  | .error _ => defaultAnalysis

/-- External collaborators the batch driver consumes: the Encoder
oracle, the raw remote Analyzer call, and `fileToBase64` (which can
reject on a read error). -/
structure BatchEnv where
  enc : Encoder
  analyzerRaw : String → String → Except Unit AIAnalysis
  fileToBase64 : ImageFile → Except Unit String

/-- The fixed batch target: `50 * 1024` bytes (part_000 line 158). -/
def targetLimit : ℕ := 50 * 1024

/-- The body of the per-item try block in `applyAutoToBatch`
(part_000 lines 165-171): reuse a cached analysis or obtain one
(the base64 read may throw; `analyzeImage` itself never does), then run
the search; the value is the analysis used together with the search
outcome, and an error is a thrown exception reaching the catch. -/
def processBody (env : BatchEnv) (img : ImageFile) :
    Except Unit (AIAnalysis × Option CompressionResult) :=
  match img.analysis with
  | some a =>
    match iterativeCompressToTarget env.enc img a targetLimit with
    | .error e => .error e
    | .ok tr => .ok (a, tr.result)
  | none =>
    match env.fileToBase64 img with
    | .error e => .error e
    | .ok b64 =>
      let a := analyzeImage env.analyzerRaw b64 img.type
      match iterativeCompressToTarget env.enc img a targetLimit with
      | .error e => .error e
      | .ok tr => .ok (a, tr.result)

/-- `updateImageInList` (part_000 lines 73-75): functional update of
every list entry whose id matches. -/
def updateImageInList (id : ℕ) (f : ImageFile → ImageFile)
    (l : List ImageFile) : List ImageFile :=
  l.map fun img => if img.id = id then f img else img

/-- One iteration of the `applyAutoToBatch` loop acting on the evolving
queue state: mark the item optimizing, run the try block, then record
the outcome (part_000 lines 160-184).  On success the stored result
gets the reduction percentage recomputed from the original size; on
`null` or a thrown error only the status changes. -/
def runBatchStep (env : BatchEnv) (img : ImageFile)
    (state : List ImageFile) : List ImageFile :=
  let s1 := updateImageInList img.id
    (fun x => { x with status := .optimizing }) state
  match processBody env img with
  | .ok (a, some r) =>
    updateImageInList img.id
      (fun x => { x with
        analysis := some a
        result := some { r with
          reduction := (((img.size : ℚ) - (r.size : ℚ)) / (img.size : ℚ)) * 100 }
        status := .completed }) s1
  | .ok (_, none) =>
    updateImageInList img.id (fun x => { x with status := .error }) s1
  | .error _ =>
    updateImageInList img.id (fun x => { x with status := .error }) s1

/-- The loop of `applyAutoToBatch` over the indexed snapshot of the
queue, threading the evolving state and collecting the progress report
`((i + 1) / totalItems) * 100` emitted after each item
(part_000 line 185). -/
def runBatchAux (env : BatchEnv) (total : ℕ) :
    List (ℕ × ImageFile) → List ImageFile → List ImageFile × List ℚ
  | [], state => (state, [])
  | p :: rest, state =>
    let state2 := runBatchStep env p.2 state
    let out := runBatchAux env total rest state2
    (out.1, (((p.1 : ℚ) + 1) / (total : ℚ)) * 100 :: out.2)

/-- `applyAutoToBatch` (part_000 lines 154-188): process the snapshot of
the queue strictly sequentially; returns the final queue state and the
sequence of progress reports. -/
def applyAutoToBatch (env : BatchEnv) (items : List ImageFile) :
    List ImageFile × List ℚ :=
  runBatchAux env items.length items.enum items

/-! ### Derived values of Stage-1 probes under a total Encoder -/

/-- The attempt a Stage-1 probe at quality `q` produces when the codec is
the total size function `f`. -/
def s1attempt (f : EncFun) (img : ImageFile) (analysis : AIAnalysis)
    (q : ℕ) : CompressionResult :=
  mkResult
    (f img.preview q 85 none none analysis.smartCropSuggestion true
      (exportOf (searchFmt analysis)))
    img.width img.height q none none analysis.smartCropSuggestion
    (exportOf (searchFmt analysis))

/-- The byte size a Stage-1 probe at quality `q` observes. -/
def s1size (f : EncFun) (img : ImageFile) (analysis : AIAnalysis)
    (q : ℕ) : ℕ :=
  (s1attempt f img analysis q).size

/-- The per-element transformation one batch iteration applies to the
queue entries matching the processed item's id: the transient
`optimizing` status is overwritten by the final status, so only the
outcome update survives. -/
def stepTrans (env : BatchEnv) (img : ImageFile) (x : ImageFile) :
    ImageFile :=
  match processBody env img with
  | .ok (a, some r) =>
    { x with
      analysis := some a
      result := some { r with
        reduction := (((img.size : ℚ) - (r.size : ℚ)) / (img.size : ℚ)) * 100 }
      status := .completed }
  | .ok (_, none) => { x with status := .error }
  | .error _ => { x with status := .error }

/-- The final state of a processed item whose id is unique in the queue. -/
def itemFinal (env : BatchEnv) (img : ImageFile) : ImageFile :=
  stepTrans env img img

/-- The state evolution of the batch loop, with the progress bookkeeping
stripped (it does not influence the state). -/
def runBatchFold (env : BatchEnv) (imgs : List ImageFile)
    (state : List ImageFile) : List ImageFile :=
  imgs.foldl (fun st i => runBatchStep env i st) state

/-! ### Concrete fixtures used by the witnesses and counterexamples -/

/-- A demo queue item. -/
def wImg : ImageFile :=
  { id := 1, preview := "blob:demo", size := 100000, type := "image/png",
    width := 1000, height := 800, status := .idle, result := none,
    analysis := none }

/-- A demo analysis (no smart crop, webp). -/
def wAnalysis : AIAnalysis :=
  { description := "d", recommendedQuality := 75, focusAreas := [],
    suggestedFormat := "webp", complexityScore := 5,
    savingsEstimate := "40%", smartCropSuggestion := none }

/-- A total demo codec whose size grows linearly with quality. -/
def wSizeQ : EncFun := fun _ q _ _ _ _ _ _ => 10 * q

/-- A total demo codec that always exceeds any small target. -/
def wSizeBig : EncFun := fun _ _ _ _ _ _ _ _ => 999999

def wEncQ : Encoder := pureEnc wSizeQ

def wEncBig : Encoder := pureEnc wSizeBig

def wFallback : SearchTrace := ⟨none, [], []⟩

/-- The search run against the linear codec with target 500. -/
def wTrQ : SearchTrace :=
  ((iterativeCompressToTarget wEncQ wImg wAnalysis 500).toOption).getD
    wFallback

/-- The search run against the oversized codec with target 500. -/
def wTrBig : SearchTrace :=
  ((iterativeCompressToTarget wEncBig wImg wAnalysis 500).toOption).getD
    wFallback

def wResQ : CompressionResult :=
  wTrQ.result.getD ⟨0, 0, 0, 0, 0, ""⟩

/-- The Stage-1 outcome of the oversized run. -/
def wS1Big : Option CompressionResult × List EncCall :=
  ((stage1 wEncBig wImg wAnalysis.smartCropSuggestion (searchFmt wAnalysis)
    500 86 5 90 none).toOption).getD (none, [])

/-- A queue item without a cached analysis. -/
def wItem0 : ImageFile := { wImg with id := 0 }

/-- A queue item with a cached analysis. -/
def wItem1 : ImageFile := { wImg with id := 1, analysis := some wAnalysis }

/-- An environment where every collaborator succeeds. -/
def wEnvOk : BatchEnv :=
  ⟨wEncQ, fun _ _ => .ok wAnalysis, fun _ => .ok "b64"⟩

/-- An environment whose base64 read fails exactly for item id 0. -/
def wEnvFail : BatchEnv :=
  ⟨wEncQ, fun _ _ => .ok wAnalysis,
    fun i => if i.id = 0 then .error () else .ok "b64"⟩

/-- An environment whose remote Analyzer always fails. -/
def wEnvNoAI : BatchEnv :=
  ⟨wEncQ, fun _ _ => .error (), fun _ => .ok "b64"⟩

/-- A pre-existing compression result attached to an item before the
batch runs (e.g. left by the live-preview manual optimizer). -/
def cexResult : CompressionResult := ⟨1234, 70, 0, 100, 80, "WEBP"⟩

/-- An item that enters the batch already carrying a result. -/
def cexItem : ImageFile :=
  { wImg with id := 7, result := some cexResult }

/-- An environment whose base64 read always fails, so the item errors. -/
def cexEnv : BatchEnv :=
  ⟨wEncQ, fun _ _ => .ok wAnalysis, fun _ => .error ()⟩

/-- A demo analysis suggesting avif. -/
def wAnalysisAvif : AIAnalysis := { wAnalysis with suggestedFormat := "avif" }

/-- The search run with an avif-suggesting analysis. -/
def wTrAvif : SearchTrace :=
  ((iterativeCompressToTarget wEncQ wImg wAnalysisAvif 500).toOption).getD
    wFallback

def wResAvif : CompressionResult :=
  wTrAvif.result.getD ⟨0, 0, 0, 0, 0, ""⟩

/-- One direct avif-format call of the Encoder wrapper. -/
def wCmpAvif : Except Unit CompressionResult :=
  compressImage wEncQ "p" 10 10 50 "image/avif" 85 none none none true

def wResCmp : CompressionResult :=
  wCmpAvif.toOption.getD ⟨0, 0, 0, 0, 0, ""⟩

theorem compressImage_pureEnc (f : EncFun) (p : String) (w h q : ℕ)
    (fmt : String) (d : ℕ) (tw th : Option ℤ) (c : Option CropArea)
    (s : Bool) :
    compressImage (pureEnc f) p w h q fmt d tw th c s =
      .ok (mkResult (f p q d tw th c s (exportOf fmt)) w h q tw th c
        (exportOf fmt)) :=
  rfl

theorem s1attempt_probe (f : EncFun) (img : ImageFile)
    (analysis : AIAnalysis) (q : ℕ) :
    compressImage (pureEnc f) img.preview img.width img.height q
        (searchFmt analysis) 85 none none analysis.smartCropSuggestion true =
      .ok (s1attempt f img analysis q) :=
  rfl

theorem s1size_eq (f : EncFun) (img : ImageFile) (analysis : AIAnalysis)
    (q : ℕ) :
    s1size f img analysis q =
      f img.preview q 85 none none analysis.smartCropSuggestion true
        (exportOf (searchFmt analysis)) :=
  rfl

theorem s1attempt_quality (f : EncFun) (img : ImageFile)
    (analysis : AIAnalysis) (q : ℕ) :
    (s1attempt f img analysis q).quality = q :=
  rfl

/-! ### Invariants of the two bisection stages -/

theorem compressImage_ok_size (enc : Encoder) (p : String) (w h q : ℕ)
    (fmt : String) (d : ℕ) (tw th : Option ℤ) (c : Option CropArea)
    (s : Bool) (r : CompressionResult)
    (hr : compressImage enc p w h q fmt d tw th c s = .ok r) :
    ∃ n, enc p q d tw th c s (exportOf fmt) = .ok n ∧
      r = mkResult n w h q tw th c (exportOf fmt) := by
  simp only [compressImage] at hr
  cases he : enc p q d tw th c s (exportOf fmt) with
  | error e => rw [he] at hr; exact absurd hr (by simp)
  | ok n =>
    rw [he] at hr
    simp only [Except.ok.injEq] at hr
    exact ⟨n, rfl, hr.symm⟩

/-- Case characterization of one unfolding of the Stage-1 loop. -/
theorem stage1_succ_ok (enc : Encoder) (img : ImageFile)
    (crop : Option CropArea) (fmt : String)
    (target fuel lowQ highQ : ℕ) (best b : Option CompressionResult)
    (t : List EncCall) :
    stage1 enc img crop fmt target (fuel + 1) lowQ highQ best = .ok (b, t) ↔
      ((¬ lowQ ≤ highQ) ∧ b = best ∧ t = []) ∨
      (lowQ ≤ highQ ∧ ∃ res t2,
        compressImage enc img.preview img.width img.height
          ((lowQ + highQ) / 2) fmt 85 none none crop true = .ok res ∧
        t = ⟨(lowQ + highQ) / 2, 85, none, none, fmt, res.size⟩ :: t2 ∧
        ((res.size ≤ target ∧
            stage1 enc img crop fmt target fuel ((lowQ + highQ) / 2 + 1)
              highQ (some res) = .ok (b, t2)) ∨
         (¬ res.size ≤ target ∧
            stage1 enc img crop fmt target fuel lowQ
              ((lowQ + highQ) / 2 - 1) best = .ok (b, t2)))) := by
  rw [stage1]
  by_cases hle : lowQ ≤ highQ
  · rw [if_pos hle]
    cases hc : compressImage enc img.preview img.width img.height
        ((lowQ + highQ) / 2) fmt 85 none none crop true with
    | error e =>
      simp only [hc, hle, true_and, not_true_eq_false, false_and, false_or]
      constructor
      · intro h; exact absurd h (by simp)
      · rintro ⟨res, t2, hres, -⟩
        exact absurd hres (by simp)
    | ok res =>
      simp only [hc, hle, not_true_eq_false, false_and, false_or, true_and,
        Except.ok.injEq]
      by_cases hsz : res.size ≤ target
      · rw [if_pos hsz]
        cases hrec : stage1 enc img crop fmt target fuel
            ((lowQ + highQ) / 2 + 1) highQ (some res) with
        | error e =>
          simp only [hrec]
          constructor
          · intro h; exact absurd h (by simp)
          · rintro ⟨res2, t2, hres2, -, hbr⟩
            subst hres2
            rcases hbr with ⟨-, hp⟩ | ⟨hn, -⟩
            · rw [hrec] at hp; exact absurd hp (by simp)
            · exact absurd hsz hn
        | ok bt =>
          obtain ⟨b2, t2⟩ := bt
          simp only [hrec]
          constructor
          · intro h
            simp only [Except.ok.injEq, Prod.mk.injEq] at h
            exact ⟨res, t2, rfl, h.2.symm, Or.inl ⟨hsz, by rw [← h.1]; exact hrec⟩⟩
          · rintro ⟨res2, t3, hres2, ht, hbr⟩
            subst hres2
            rcases hbr with ⟨-, hp⟩ | ⟨hn, -⟩
            · rw [hrec, Except.ok.injEq, Prod.mk.injEq] at hp
              rw [ht, hp.1, hp.2]
            · exact absurd hsz hn
      · rw [if_neg hsz]
        cases hrec : stage1 enc img crop fmt target fuel lowQ
            ((lowQ + highQ) / 2 - 1) best with
        | error e =>
          simp only [hrec]
          constructor
          · intro h; exact absurd h (by simp)
          · rintro ⟨res2, t2, hres2, -, hbr⟩
            subst hres2
            rcases hbr with ⟨hp, -⟩ | ⟨-, hn⟩
            · exact absurd hp hsz
            · exact absurd hn (by simp)
        | ok bt =>
          obtain ⟨b2, t2⟩ := bt
          simp only [hrec]
          constructor
          · intro h
            simp only [Except.ok.injEq, Prod.mk.injEq] at h
            exact ⟨res, t2, rfl, h.2.symm, Or.inr ⟨hsz, by rw [h.1]⟩⟩
          · rintro ⟨res2, t3, hres2, ht, hbr⟩
            subst hres2
            rcases hbr with ⟨hp, -⟩ | ⟨-, hn⟩
            · exact absurd hp hsz
            · rw [Except.ok.injEq, Prod.mk.injEq] at hn
              rw [ht, hn.1, hn.2]
  · rw [if_neg hle]
    simp only [hle, not_false_eq_true, true_and, false_and, or_false,
      Except.ok.injEq, Prod.mk.injEq]
    constructor
    · intro h; exact ⟨h.1.symm, h.2.symm⟩
    · intro h; exact ⟨h.1.symm, h.2.symm⟩

/-- Case characterization of one unfolding of the Stage-2 loop. -/
theorem stage2_succ_ok (enc : Encoder) (img : ImageFile)
    (crop : Option CropArea) (fmt : String) (target iters : ℕ)
    (lowS highS : ℚ) (best b : Option CompressionResult)
    (t : List EncCall) :
    stage2 enc img crop fmt target (iters + 1) lowS highS best = .ok (b, t) ↔
      (∃ res t2,
        compressImage enc img.preview img.width img.height 40 fmt 80
          (some (jsRound ((img.width : ℚ) * ((lowS + highS) / 2))))
          (some (jsRound ((img.height : ℚ) * ((lowS + highS) / 2))))
          crop true = .ok res ∧
        t = ⟨40, 80, some (jsRound ((img.width : ℚ) * ((lowS + highS) / 2))),
          some (jsRound ((img.height : ℚ) * ((lowS + highS) / 2))), fmt,
          res.size⟩ :: t2 ∧
        ((res.size ≤ target ∧
            stage2 enc img crop fmt target iters ((lowS + highS) / 2) highS
              (some res) = .ok (b, t2)) ∨
         (¬ res.size ≤ target ∧
            stage2 enc img crop fmt target iters lowS ((lowS + highS) / 2)
              best = .ok (b, t2)))) := by
  rw [stage2]
  cases hc : compressImage enc img.preview img.width img.height 40 fmt 80
      (some (jsRound ((img.width : ℚ) * ((lowS + highS) / 2))))
      (some (jsRound ((img.height : ℚ) * ((lowS + highS) / 2)))) crop true with
  | error e =>
    simp only [hc]
    constructor
    · intro h; exact absurd h (by simp)
    · rintro ⟨res, t2, hres, -⟩
      exact absurd hres (by simp)
  | ok res =>
    simp only [hc, Except.ok.injEq]
    by_cases hsz : res.size ≤ target
    · rw [if_pos hsz]
      cases hrec : stage2 enc img crop fmt target iters ((lowS + highS) / 2)
          highS (some res) with
      | error e =>
        simp only [hrec]
        constructor
        · intro h; exact absurd h (by simp)
        · rintro ⟨res2, t2, hres2, -, hbr⟩
          subst hres2
          rcases hbr with ⟨-, hp⟩ | ⟨hn, -⟩
          · rw [hrec] at hp; exact absurd hp (by simp)
          · exact absurd hsz hn
      | ok bt =>
        obtain ⟨b2, t2⟩ := bt
        simp only [hrec]
        constructor
        · intro h
          simp only [Except.ok.injEq, Prod.mk.injEq] at h
          exact ⟨res, t2, rfl, h.2.symm, Or.inl ⟨hsz, by rw [← h.1]; exact hrec⟩⟩
        · rintro ⟨res2, t3, hres2, ht, hbr⟩
          subst hres2
          rcases hbr with ⟨-, hp⟩ | ⟨hn, -⟩
          · rw [hrec, Except.ok.injEq, Prod.mk.injEq] at hp
            rw [ht, hp.1, hp.2]
          · exact absurd hsz hn
    · rw [if_neg hsz]
      cases hrec : stage2 enc img crop fmt target iters lowS
          ((lowS + highS) / 2) best with
      | error e =>
        simp only [hrec]
        constructor
        · intro h; exact absurd h (by simp)
        · rintro ⟨res2, t2, hres2, -, hbr⟩
          subst hres2
          rcases hbr with ⟨hp, -⟩ | ⟨-, hn⟩
          · exact absurd hp hsz
          · exact absurd hn (by simp)
      | ok bt =>
        obtain ⟨b2, t2⟩ := bt
        simp only [hrec]
        constructor
        · intro h
          simp only [Except.ok.injEq, Prod.mk.injEq] at h
          exact ⟨res, t2, rfl, h.2.symm, Or.inr ⟨hsz, by rw [h.1]⟩⟩
        · rintro ⟨res2, t3, hres2, ht, hbr⟩
          subst hres2
          rcases hbr with ⟨hp, -⟩ | ⟨-, hn⟩
          · exact absurd hp hsz
          · rw [Except.ok.injEq, Prod.mk.injEq] at hn
            rw [ht, hn.1, hn.2]

/-- Every best attempt Stage 1 hands back satisfies the target bound,
provided the best it started from did: the only assignment to the best
is guarded by `res.size <= target`. -/
theorem stage1_ok_best (enc : Encoder) (img : ImageFile)
    (crop : Option CropArea) (fmt : String) (target : ℕ) :
    ∀ fuel lowQ highQ best b t,
      stage1 enc img crop fmt target fuel lowQ highQ best = .ok (b, t) →
      (∀ r, best = some r → r.size ≤ target) →
      ∀ r, b = some r → r.size ≤ target := by
  intro fuel
  induction fuel with
  | zero =>
    intro lowQ highQ best b t h hbest
    simp only [stage1, Except.ok.injEq, Prod.mk.injEq] at h
    exact h.1 ▸ hbest
  | succ fuel ih =>
    intro lowQ highQ best b t h hbest
    rw [stage1_succ_ok] at h
    rcases h with ⟨-, hb, -⟩ | ⟨-, res, t2, -, -, hbr⟩
    · exact hb ▸ hbest
    · rcases hbr with ⟨hsz, hp⟩ | ⟨-, hp⟩
      · refine ih _ _ _ _ _ hp ?_
        intro r hr
        rw [Option.some.injEq] at hr
        exact hr ▸ hsz
      · exact ih _ _ _ _ _ hp hbest

/-- Every best attempt Stage 2 hands back satisfies the target bound,
provided the best it started from did. -/
theorem stage2_ok_best (enc : Encoder) (img : ImageFile)
    (crop : Option CropArea) (fmt : String) (target : ℕ) :
    ∀ iters lowS highS best b t,
      stage2 enc img crop fmt target iters lowS highS best = .ok (b, t) →
      (∀ r, best = some r → r.size ≤ target) →
      ∀ r, b = some r → r.size ≤ target := by
  intro iters
  induction iters with
  | zero =>
    intro lowS highS best b t h hbest
    simp only [stage2, Except.ok.injEq, Prod.mk.injEq] at h
    exact h.1 ▸ hbest
  | succ iters ih =>
    intro lowS highS best b t h hbest
    rw [stage2_succ_ok] at h
    rcases h with ⟨res, t2, -, -, hbr⟩
    rcases hbr with ⟨hsz, hp⟩ | ⟨-, hp⟩
    · refine ih _ _ _ _ _ hp ?_
      intro r hr
      rw [Option.some.injEq] at hr
      exact hr ▸ hsz
    · exact ih _ _ _ _ _ hp hbest

/-- Stage 1 makes at most `k` Encoder calls when the quality interval
fits below `2 ^ k - 1`: each iteration leaves at most half of the
(strictly shrunk) interval. -/
theorem stage1_ok_length (enc : Encoder) (img : ImageFile)
    (crop : Option CropArea) (fmt : String) (target : ℕ) :
    ∀ fuel k lowQ highQ best b t,
      stage1 enc img crop fmt target fuel lowQ highQ best = .ok (b, t) →
      1 ≤ lowQ →
      highQ + 1 - lowQ ≤ 2 ^ k - 1 →
      t.length ≤ k := by
  intro fuel
  induction fuel with
  | zero =>
    intro k lowQ highQ best b t h hlow hk
    simp only [stage1, Except.ok.injEq, Prod.mk.injEq] at h
    rw [← h.2]
    exact Nat.zero_le k
  | succ fuel ih =>
    intro k lowQ highQ best b t h hlow hk
    rw [stage1_succ_ok] at h
    rcases h with ⟨-, -, ht⟩ | ⟨hle, res, t2, -, ht, hbr⟩
    · rw [ht]; exact Nat.zero_le k
    · cases k with
      | zero =>
        exfalso
        simp only [pow_zero] at hk
        omega
      | succ k =>
        have hmid1 : lowQ ≤ (lowQ + highQ) / 2 := by omega
        have hmid2 : (lowQ + highQ) / 2 ≤ highQ := by omega
        have hpow : 2 ^ (k + 1) = 2 * 2 ^ k := by rw [pow_succ]; ring
        have hk2 : 1 ≤ 2 ^ k := Nat.one_le_two_pow
        rw [ht]
        simp only [List.length_cons, Nat.succ_le_succ_iff]
        rcases hbr with ⟨-, hp⟩ | ⟨-, hp⟩
        · exact ih k _ _ _ _ _ hp (by omega) (by omega)
        · exact ih k _ _ _ _ _ hp (by omega) (by omega)

/-- Stage 2 makes exactly one Encoder call per iteration of its fixed
loop. -/
theorem stage2_ok_length (enc : Encoder) (img : ImageFile)
    (crop : Option CropArea) (fmt : String) (target : ℕ) :
    ∀ iters lowS highS best b t,
      stage2 enc img crop fmt target iters lowS highS best = .ok (b, t) →
      t.length = iters := by
  intro iters
  induction iters with
  | zero =>
    intro lowS highS best b t h
    simp only [stage2, Except.ok.injEq, Prod.mk.injEq] at h
    rw [← h.2]
    rfl
  | succ iters ih =>
    intro lowS highS best b t h
    rw [stage2_succ_ok] at h
    rcases h with ⟨res, t2, -, ht, hbr⟩
    rcases hbr with ⟨-, hp⟩ | ⟨-, hp⟩
    · rw [ht, List.length_cons, ih _ _ _ _ _ hp]
    · rw [ht, List.length_cons, ih _ _ _ _ _ hp]

/-- If every Encoder call Stage 1 made came back above the target, the
best stays whatever it started as. -/
theorem stage1_ok_all_big (enc : Encoder) (img : ImageFile)
    (crop : Option CropArea) (fmt : String) (target : ℕ) :
    ∀ fuel lowQ highQ best b t,
      stage1 enc img crop fmt target fuel lowQ highQ best = .ok (b, t) →
      (∀ c ∈ t, target < c.size) →
      b = best := by
  intro fuel
  induction fuel with
  | zero =>
    intro lowQ highQ best b t h _
    simp only [stage1, Except.ok.injEq, Prod.mk.injEq] at h
    exact h.1.symm
  | succ fuel ih =>
    intro lowQ highQ best b t h hbig
    rw [stage1_succ_ok] at h
    rcases h with ⟨-, hb, -⟩ | ⟨-, res, t2, -, ht, hbr⟩
    · exact hb
    · rcases hbr with ⟨hsz, -⟩ | ⟨-, hp⟩
      · exfalso
        have := hbig ⟨(lowQ + highQ) / 2, 85, none, none, fmt, res.size⟩
          (by rw [ht]; exact List.mem_cons_self _ _)
        simp only at this
        omega
      · exact ih _ _ _ _ _ hp fun c hc => hbig c (by rw [ht]; exact List.mem_cons_of_mem _ hc)

/-- If every Encoder call Stage 2 made came back above the target, the
best stays whatever it started as. -/
theorem stage2_ok_all_big (enc : Encoder) (img : ImageFile)
    (crop : Option CropArea) (fmt : String) (target : ℕ) :
    ∀ iters lowS highS best b t,
      stage2 enc img crop fmt target iters lowS highS best = .ok (b, t) →
      (∀ c ∈ t, target < c.size) →
      b = best := by
  intro iters
  induction iters with
  | zero =>
    intro lowS highS best b t h _
    simp only [stage2, Except.ok.injEq, Prod.mk.injEq] at h
    exact h.1.symm
  | succ iters ih =>
    intro lowS highS best b t h hbig
    rw [stage2_succ_ok] at h
    rcases h with ⟨res, t2, -, ht, hbr⟩
    rcases hbr with ⟨hsz, -⟩ | ⟨-, hp⟩
    · exfalso
      have := hbig ⟨40, 80, some (jsRound ((img.width : ℚ) * ((lowS + highS) / 2))),
        some (jsRound ((img.height : ℚ) * ((lowS + highS) / 2))), fmt, res.size⟩
        (by rw [ht]; exact List.mem_cons_self _ _)
      simp only at this
      omega
    · exact ih _ _ _ _ _ hp fun c hc => hbig c (by rw [ht]; exact List.mem_cons_of_mem _ hc)

theorem compressImage_ok_format (enc : Encoder) (p : String) (w h q : ℕ)
    (fmt : String) (d : ℕ) (tw th : Option ℤ) (c : Option CropArea)
    (s : Bool) (r : CompressionResult)
    (hr : compressImage enc p w h q fmt d tw th c s = .ok r) :
    r.format = formatLabel (exportOf fmt) := by
  obtain ⟨n, -, hmk⟩ := compressImage_ok_size enc p w h q fmt d tw th c s r hr
  rw [hmk]
  rfl

/-- Every best attempt Stage 1 hands back carries the format label of
the export format, provided the best it started from did. -/
theorem stage1_ok_format (enc : Encoder) (img : ImageFile)
    (crop : Option CropArea) (fmt : String) (target : ℕ) :
    ∀ fuel lowQ highQ best b t,
      stage1 enc img crop fmt target fuel lowQ highQ best = .ok (b, t) →
      (∀ r, best = some r → r.format = formatLabel (exportOf fmt)) →
      ∀ r, b = some r → r.format = formatLabel (exportOf fmt) := by
  intro fuel
  induction fuel with
  | zero =>
    intro lowQ highQ best b t h hbest
    simp only [stage1, Except.ok.injEq, Prod.mk.injEq] at h
    exact h.1 ▸ hbest
  | succ fuel ih =>
    intro lowQ highQ best b t h hbest
    rw [stage1_succ_ok] at h
    rcases h with ⟨-, hb, -⟩ | ⟨-, res, t2, hres, -, hbr⟩
    · exact hb ▸ hbest
    · rcases hbr with ⟨-, hp⟩ | ⟨-, hp⟩
      · refine ih _ _ _ _ _ hp ?_
        intro r hr
        rw [Option.some.injEq] at hr
        rw [← hr]
        exact compressImage_ok_format _ _ _ _ _ _ _ _ _ _ _ _ hres
      · exact ih _ _ _ _ _ hp hbest

/-- Every best attempt Stage 2 hands back carries the format label of
the export format, provided the best it started from did. -/
theorem stage2_ok_format (enc : Encoder) (img : ImageFile)
    (crop : Option CropArea) (fmt : String) (target : ℕ) :
    ∀ iters lowS highS best b t,
      stage2 enc img crop fmt target iters lowS highS best = .ok (b, t) →
      (∀ r, best = some r → r.format = formatLabel (exportOf fmt)) →
      ∀ r, b = some r → r.format = formatLabel (exportOf fmt) := by
  intro iters
  induction iters with
  | zero =>
    intro lowS highS best b t h hbest
    simp only [stage2, Except.ok.injEq, Prod.mk.injEq] at h
    exact h.1 ▸ hbest
  | succ iters ih =>
    intro lowS highS best b t h hbest
    rw [stage2_succ_ok] at h
    rcases h with ⟨res, t2, hres, -, hbr⟩
    rcases hbr with ⟨-, hp⟩ | ⟨-, hp⟩
    · refine ih _ _ _ _ _ hp ?_
      intro r hr
      rw [Option.some.injEq] at hr
      rw [← hr]
      exact compressImage_ok_format _ _ _ _ _ _ _ _ _ _ _ _ hres
    · exact ih _ _ _ _ _ hp hbest

/-- Decomposition of a successful search into its two stages, exposing
the Stage-1 best and the source guard `!bestRes || bestRes.size > target`. -/
theorem search_ok_cases (enc : Encoder) (img : ImageFile)
    (analysis : AIAnalysis) (target : ℕ) (tr : SearchTrace)
    (h : iterativeCompressToTarget enc img analysis target = .ok tr) :
    ∃ b1 t1,
      stage1 enc img analysis.smartCropSuggestion (searchFmt analysis) target
        86 5 90 none = .ok (b1, t1) ∧
      tr.s1calls = t1 ∧
      ((∃ r, b1 = some r ∧ r.size ≤ target ∧ tr = ⟨b1, t1, []⟩) ∨
       ((b1 = none ∨ ∃ r, b1 = some r ∧ target < r.size) ∧
        ∃ t2, stage2 enc img analysis.smartCropSuggestion (searchFmt analysis)
          target 8 (1 / 20) (19 / 20) b1 = .ok (tr.result, t2) ∧
          tr.s2calls = t2)) := by
  simp only [iterativeCompressToTarget] at h
  cases h1 : stage1 enc img analysis.smartCropSuggestion (searchFmt analysis)
      target 86 5 90 none with
  | error e => rw [h1] at h; exact absurd h (by simp)
  | ok bt =>
    obtain ⟨b1, t1⟩ := bt
    refine ⟨b1, t1, rfl, ?_⟩
    cases b1 with
    | none =>
      simp only [h1, if_true] at h
      cases h2 : stage2 enc img analysis.smartCropSuggestion
          (searchFmt analysis) target 8 (1 / 20) (19 / 20) none with
      | error e => simp only [h2] at h; exact absurd h (by simp)
      | ok bt2 =>
        obtain ⟨b2, t2⟩ := bt2
        simp only [h2, Except.ok.injEq] at h
        subst h
        exact ⟨rfl, Or.inr ⟨Or.inl rfl, t2, rfl, rfl⟩⟩
    | some r =>
      simp only [h1, decide_eq_true_eq] at h
      by_cases hsz : target < r.size
      · rw [if_pos hsz] at h
        cases h2 : stage2 enc img analysis.smartCropSuggestion
            (searchFmt analysis) target 8 (1 / 20) (19 / 20) (some r) with
        | error e => simp only [h2] at h; exact absurd h (by simp)
        | ok bt2 =>
          obtain ⟨b2, t2⟩ := bt2
          simp only [h2, Except.ok.injEq] at h
          subst h
          exact ⟨rfl, Or.inr ⟨Or.inr ⟨r, rfl, hsz⟩, t2, rfl, rfl⟩⟩
      · rw [if_neg hsz] at h
        simp only [Except.ok.injEq] at h
        subst h
        exact ⟨rfl, Or.inl ⟨r, rfl, by omega, rfl⟩⟩

/-- Main Stage-1 correctness invariant: under a total codec whose probe
sizes over `[5, 90]` are below the target exactly up to quality `M`, the
bisection returns the attempt at quality `M`.  The invariant carried by
the loop state `(lowQ, highQ, best)`: the answer lies at `M ∈
[lowQ - 1, highQ]` and, unless the loop has not yet recorded anything
(`lowQ = 5`, `best = none`), the best is the attempt at `lowQ - 1`. -/
theorem stage1_bisect (f : EncFun) (img : ImageFile) (analysis : AIAnalysis)
    (target M : ℕ)
    (hchar : ∀ q, 5 ≤ q → q ≤ 90 →
      ((s1attempt f img analysis q).size ≤ target ↔ q ≤ M))
    (hM5 : 5 ≤ M) (hM90 : M ≤ 90) :
    ∀ fuel lowQ highQ best,
      highQ + 1 - lowQ ≤ fuel → 5 ≤ lowQ → highQ ≤ 90 →
      lowQ ≤ M + 1 → M ≤ highQ →
      ((lowQ = 5 ∧ best = none) ∨
       (best = some (s1attempt f img analysis (lowQ - 1)) ∧ lowQ - 1 ≤ M ∧
        5 ≤ lowQ - 1)) →
      ∃ t, stage1 (pureEnc f) img analysis.smartCropSuggestion
          (searchFmt analysis) target fuel lowQ highQ best =
        .ok (some (s1attempt f img analysis M), t) := by
  intro fuel
  induction fuel with
  | zero =>
    intro lowQ highQ best hfuel hlow hhigh hlM hMh hinv
    have hexit : lowQ = M + 1 := by omega
    rcases hinv with ⟨h5, -⟩ | ⟨hb, -, -⟩
    · omega
    · refine ⟨[], ?_⟩
      simp only [stage1]
      rw [hb, hexit]
      simp only [Nat.add_sub_cancel]
  | succ fuel ih =>
    intro lowQ highQ best hfuel hlow hhigh hlM hMh hinv
    by_cases hle : lowQ ≤ highQ
    · have hmid1 : lowQ ≤ (lowQ + highQ) / 2 := by omega
      have hmid2 : (lowQ + highQ) / 2 ≤ highQ := by omega
      by_cases hq : (lowQ + highQ) / 2 ≤ M
      · have hsz : (s1attempt f img analysis ((lowQ + highQ) / 2)).size ≤
            target := (hchar _ (by omega) (by omega)).2 hq
        obtain ⟨t2, hrec⟩ := ih ((lowQ + highQ) / 2 + 1) highQ
          (some (s1attempt f img analysis ((lowQ + highQ) / 2)))
          (by omega) (by omega) hhigh (by omega) hMh
          (Or.inr ⟨by rw [Nat.add_sub_cancel], by omega, by omega⟩)
        refine ⟨⟨(lowQ + highQ) / 2, 85, none, none, searchFmt analysis,
          (s1attempt f img analysis ((lowQ + highQ) / 2)).size⟩ :: t2, ?_⟩
        simp only [stage1]
        rw [if_pos hle]
        simp only [s1attempt_probe, if_pos hsz, hrec]
      · have hsz : ¬ (s1attempt f img analysis ((lowQ + highQ) / 2)).size ≤
            target := fun hc => hq ((hchar _ (by omega) (by omega)).1 hc)
        obtain ⟨t2, hrec⟩ := ih lowQ ((lowQ + highQ) / 2 - 1) best
          (by omega) hlow (by omega) hlM (by omega) hinv
        refine ⟨⟨(lowQ + highQ) / 2, 85, none, none, searchFmt analysis,
          (s1attempt f img analysis ((lowQ + highQ) / 2)).size⟩ :: t2, ?_⟩
        simp only [stage1]
        rw [if_pos hle]
        simp only [s1attempt_probe, if_neg hsz, hrec]
    · have hexit : lowQ = M + 1 := by omega
      rcases hinv with ⟨h5, -⟩ | ⟨hb, -, -⟩
      · omega
      · refine ⟨[], ?_⟩
        simp only [stage1]
        rw [if_neg hle, hb, hexit]
        simp only [Nat.add_sub_cancel]

/-! ### Claim theorems -/

/-- C1: for every image and every targetBytes > 0, if the Encoder is
monotone (size non-increasing as quality decreases) and some quality in
the inclusive range `[5, 90]` at native scale yields
`sizeBytes <= targetBytes`, then the search returns Found with the
attempt at the highest quality in `[5, 90]` whose size is at most the
target, without running Stage 2. -/
theorem search_finds_highest_quality (f : EncFun) (img : ImageFile)
    (analysis : AIAnalysis) (target : ℕ) (htarget : 0 < target)
    (hmono : ∀ q1 q2, 5 ≤ q1 → q1 ≤ q2 → q2 ≤ 90 →
      s1size f img analysis q1 ≤ s1size f img analysis q2)
    (hex : ∃ q, 5 ≤ q ∧ q ≤ 90 ∧ s1size f img analysis q ≤ target) :
    ∃ M tr,
      5 ≤ M ∧ M ≤ 90 ∧ s1size f img analysis M ≤ target ∧
      (∀ q, 5 ≤ q → q ≤ 90 → s1size f img analysis q ≤ target → q ≤ M) ∧
      iterativeCompressToTarget (pureEnc f) img analysis target = .ok tr ∧
      tr.result = some (s1attempt f img analysis M) ∧
      (s1attempt f img analysis M).quality = M ∧
      tr.s2calls = [] := by
  obtain ⟨q0, hq05, hq090, hq0⟩ := hex
  have hdec : DecidablePred (fun q => s1size f img analysis q ≤ target) :=
    fun q => Nat.decLe (s1size f img analysis q) target
  obtain ⟨M, hM5, hM90, hPM, hgreat⟩ :
      ∃ M, 5 ≤ M ∧ M ≤ 90 ∧ s1size f img analysis M ≤ target ∧
        ∀ q, 5 ≤ q → q ≤ 90 → s1size f img analysis q ≤ target → q ≤ M := by
    have hq0M : q0 ≤
        Nat.findGreatest (fun q => s1size f img analysis q ≤ target) 90 :=
      @Nat.le_findGreatest q0 (fun q => s1size f img analysis q ≤ target)
        hdec 90 hq090 hq0
    refine ⟨Nat.findGreatest (fun q => s1size f img analysis q ≤ target) 90,
      le_trans hq05 hq0M,
      @Nat.findGreatest_le (fun q => s1size f img analysis q ≤ target)
        hdec 90,
      @Nat.findGreatest_spec q0 (fun q => s1size f img analysis q ≤ target)
        hdec 90 hq090 hq0, ?_⟩
    intro q _ hq90 hPq
    by_contra hlt
    exact @Nat.findGreatest_is_greatest q
      (fun q => s1size f img analysis q ≤ target) hdec 90 (by omega) hq90 hPq
  have hchar : ∀ q, 5 ≤ q → q ≤ 90 →
      ((s1attempt f img analysis q).size ≤ target ↔ q ≤ M) := by
    intro q hq5 hq90
    constructor
    · exact hgreat q hq5 hq90
    · intro hqM
      exact le_trans (hmono q M hq5 hqM hM90) hPM
  obtain ⟨t, hs1⟩ := stage1_bisect f img analysis target M hchar hM5 hM90
    86 5 90 none (by omega) (by omega) (by omega) (by omega) hM90
    (Or.inl ⟨rfl, rfl⟩)
  refine ⟨M, ⟨some (s1attempt f img analysis M), t, []⟩, hM5, hM90, hPM,
    hgreat, ?_, rfl, rfl, rfl⟩
  have hPM2 : (s1attempt f img analysis M).size ≤ target := hPM
  simp only [iterativeCompressToTarget, hs1, decide_eq_true_eq]
  rw [if_neg (by omega : ¬ target < (s1attempt f img analysis M).size)]

/-- Witness for C1 on a linear codec: the highest quality in `[5, 90]`
with `10 * q ≤ 500` is found without Stage 2. -/
theorem search_finds_highest_quality_witness :
    ∃ M tr,
      5 ≤ M ∧ M ≤ 90 ∧ s1size wSizeQ wImg wAnalysis M ≤ 500 ∧
      (∀ q, 5 ≤ q → q ≤ 90 → s1size wSizeQ wImg wAnalysis q ≤ 500 → q ≤ M) ∧
      iterativeCompressToTarget (pureEnc wSizeQ) wImg wAnalysis 500 =
        .ok tr ∧
      tr.result = some (s1attempt wSizeQ wImg wAnalysis M) ∧
      (s1attempt wSizeQ wImg wAnalysis M).quality = M ∧
      tr.s2calls = [] :=
  search_finds_highest_quality wSizeQ wImg wAnalysis 500 (by decide)
    (fun _ _ _ h _ => Nat.mul_le_mul_left 10 h)
    ⟨5, by decide, by decide, by decide⟩

/-- C2: the Stage-1 quality-bisection loop terminates (the interval
strictly shrinks, which the fuel bound `86 ≤ 2 ^ 7 - 1` argument makes
quantitative) and makes at most 7 Encoder calls; Stage 2 makes exactly 8
Encoder calls when entered and 0 otherwise; one search makes at most 15
Encoder calls. -/
theorem search_call_counts (enc : Encoder) (img : ImageFile)
    (analysis : AIAnalysis) (target : ℕ) (tr : SearchTrace)
    (h : iterativeCompressToTarget enc img analysis target = .ok tr) :
    tr.s1calls.length ≤ 7 ∧
    (tr.s2calls.length = 8 ∨ tr.s2calls.length = 0) ∧
    tr.s1calls.length + tr.s2calls.length ≤ 15 := by
  obtain ⟨b1, t1, hs1, ht1, hrest⟩ :=
    search_ok_cases enc img analysis target tr h
  have h7 : t1.length ≤ 7 :=
    stage1_ok_length enc img analysis.smartCropSuggestion
      (searchFmt analysis) target 86 7 5 90 none b1 t1 hs1 (by omega)
      (by norm_num)
  rcases hrest with ⟨r, -, -, htr⟩ | ⟨-, t2, hs2, ht2⟩
  · subst htr
    refine ⟨h7, Or.inr rfl, ?_⟩
    show t1.length + ([] : List EncCall).length ≤ 15
    simp only [List.length_nil]
    omega
  · have h8 : t2.length = 8 :=
      stage2_ok_length enc img analysis.smartCropSuggestion
        (searchFmt analysis) target 8 (1 / 20) (19 / 20) b1 tr.result t2 hs2
    rw [ht1, ht2]
    omega

/-- Witness for C2: the linear-codec run makes 7 Stage-1 calls and no
Stage-2 calls. -/
theorem search_call_counts_witness :
    wTrQ.s1calls.length ≤ 7 ∧
    (wTrQ.s2calls.length = 8 ∨ wTrQ.s2calls.length = 0) ∧
    wTrQ.s1calls.length + wTrQ.s2calls.length ≤ 15 :=
  search_call_counts wEncQ wImg wAnalysis 500 wTrQ rfl

/-- C3: every attempt the search records as its current best satisfies
`sizeBytes <= targetBytes` (the Stage-1 invariant from the empty best,
and the same for the composed search), so a non-null result is below the
target. -/
theorem search_best_below_target (enc : Encoder) (img : ImageFile)
    (analysis : AIAnalysis) (target : ℕ) :
    (∀ fuel lowQ highQ b t,
      stage1 enc img analysis.smartCropSuggestion (searchFmt analysis)
        target fuel lowQ highQ none = .ok (b, t) →
      ∀ r, b = some r → r.size ≤ target) ∧
    (∀ tr r, iterativeCompressToTarget enc img analysis target = .ok tr →
      tr.result = some r → r.size ≤ target) := by
  constructor
  · intro fuel lowQ highQ b t h
    exact stage1_ok_best enc img analysis.smartCropSuggestion
      (searchFmt analysis) target fuel lowQ highQ none b t h (by simp)
  · intro tr r h hr
    obtain ⟨b1, t1, hs1, -, hrest⟩ :=
      search_ok_cases enc img analysis target tr h
    have hb1 := stage1_ok_best enc img analysis.smartCropSuggestion
      (searchFmt analysis) target 86 5 90 none b1 t1 hs1 (by simp)
    rcases hrest with ⟨r2, hb, hsz, htr⟩ | ⟨-, t2, hs2, -⟩
    · subst htr
      simp only at hr
      rw [hr] at hb
      rw [Option.some.injEq] at hb
      exact hb ▸ hsz
    · exact stage2_ok_best enc img analysis.smartCropSuggestion
        (searchFmt analysis) target 8 (1 / 20) (19 / 20) b1 tr.result t2
        hs2 hb1 r hr

/-- Witness for C3: the result of the linear-codec run is below its
target. -/
theorem search_best_below_target_witness :
    wTrQ.result = some wResQ ∧ wResQ.size ≤ 500 :=
  ⟨rfl, (search_best_below_target wEncQ wImg wAnalysis 500).2 wTrQ wResQ
    rfl rfl⟩

/-- C4: Stage 2 executes if and only if Stage 1 recorded no best
attempt; the alternative trigger (a Stage-1 best above the target) is
unreachable, so the source guard `!bestRes || bestRes.size > target`
is equivalent to `bestRes == null`. -/
theorem stage2_iff_no_stage1_best (enc : Encoder) (img : ImageFile)
    (analysis : AIAnalysis) (target : ℕ) (tr : SearchTrace)
    (b1 : Option CompressionResult) (t1 : List EncCall)
    (hs1 : stage1 enc img analysis.smartCropSuggestion (searchFmt analysis)
      target 86 5 90 none = .ok (b1, t1))
    (h : iterativeCompressToTarget enc img analysis target = .ok tr) :
    (tr.s2calls ≠ [] ↔ b1 = none) ∧
    (∀ r, b1 = some r → r.size ≤ target) := by
  have hbest := stage1_ok_best enc img analysis.smartCropSuggestion
    (searchFmt analysis) target 86 5 90 none b1 t1 hs1 (by simp)
  refine ⟨?_, hbest⟩
  obtain ⟨b1x, t1x, hs1x, -, hrest⟩ :=
    search_ok_cases enc img analysis target tr h
  rw [hs1, Except.ok.injEq, Prod.mk.injEq] at hs1x
  obtain ⟨hb1x, -⟩ := hs1x
  subst hb1x
  rcases hrest with ⟨r, hb, -, htr⟩ | ⟨hguard, t2, hs2, ht2⟩
  · subst htr
    simp only [ne_eq, not_true_eq_false, false_iff]
    rw [hb]
    simp
  · have h8 : t2.length = 8 :=
      stage2_ok_length enc img analysis.smartCropSuggestion
        (searchFmt analysis) target 8 (1 / 20) (19 / 20) b1 tr.result t2 hs2
    constructor
    · intro hne
      rcases hguard with hnone | ⟨r, hr, hgt⟩
      · exact hnone
      · exact absurd (hbest r hr) (by omega)
    · intro hnone2
      rw [ht2]
      intro hnil
      rw [hnil] at h8
      simp at h8

/-- Witness for C4: with an oversized codec Stage 1 records no best and
Stage 2 runs. -/
theorem stage2_iff_no_stage1_best_witness :
    wTrBig.s2calls ≠ [] ↔ wS1Big.1 = none :=
  (stage2_iff_no_stage1_best wEncBig wImg wAnalysis 500 wTrBig wS1Big.1
    wS1Big.2 rfl rfl).1

/-- C5: if no Encoder call in Stage 1 or Stage 2 returned a size within
the target, the search returns NotFound (`null`). -/
theorem search_not_found_when_all_big (enc : Encoder) (img : ImageFile)
    (analysis : AIAnalysis) (target : ℕ) (tr : SearchTrace)
    (h : iterativeCompressToTarget enc img analysis target = .ok tr)
    (hbig1 : ∀ c ∈ tr.s1calls, target < c.size)
    (hbig2 : ∀ c ∈ tr.s2calls, target < c.size) :
    tr.result = none := by
  obtain ⟨b1, t1, hs1, ht1, hrest⟩ :=
    search_ok_cases enc img analysis target tr h
  have hb1 : b1 = none :=
    stage1_ok_all_big enc img analysis.smartCropSuggestion
      (searchFmt analysis) target 86 5 90 none b1 t1 hs1
      (fun c hc => hbig1 c (ht1 ▸ hc))
  rcases hrest with ⟨r, hb, -, -⟩ | ⟨-, t2, hs2, ht2⟩
  · rw [hb1] at hb
    exact absurd hb (by simp)
  · subst hb1
    exact stage2_ok_all_big enc img analysis.smartCropSuggestion
      (searchFmt analysis) target 8 (1 / 20) (19 / 20) none tr.result t2
      hs2 (fun c hc => hbig2 c (ht2 ▸ hc))

/-- Witness for C5: all fifteen calls of the oversized run exceed the
target and the search returns null. -/
theorem search_not_found_when_all_big_witness :
    wTrBig.result = none :=
  search_not_found_when_all_big wEncBig wImg wAnalysis 500 wTrBig rfl
    (by decide) (by decide)

/-! ### Batch-driver machinery -/

theorem updateImageInList_cons (id : ℕ) (f : ImageFile → ImageFile)
    (x : ImageFile) (l : List ImageFile) :
    updateImageInList id f (x :: l) =
      (if x.id = id then f x else x) :: updateImageInList id f l :=
  rfl

theorem updateImageInList_not_mem (id : ℕ) (f : ImageFile → ImageFile)
    (l : List ImageFile) (h : ∀ y ∈ l, y.id ≠ id) :
    updateImageInList id f l = l := by
  induction l with
  | nil => rfl
  | cons x xs ih =>
    rw [updateImageInList_cons, if_neg (h x (List.mem_cons_self x xs)),
      ih (fun y hy => h y (List.mem_cons_of_mem x hy))]

theorem updateImageInList_comp (id : ℕ) (f g : ImageFile → ImageFile)
    (l : List ImageFile) (hf : ∀ x, (f x).id = x.id) :
    updateImageInList id g (updateImageInList id f l) =
      updateImageInList id (fun x => g (f x)) l := by
  induction l with
  | nil => rfl
  | cons x xs ih =>
    by_cases hx : x.id = id
    · simp only [updateImageInList_cons, if_pos hx, hf x, ih]
    · simp only [updateImageInList_cons, if_neg hx, ih]

theorem stepTrans_id (env : BatchEnv) (img x : ImageFile) :
    (stepTrans env img x).id = x.id := by
  unfold stepTrans
  cases processBody env img with
  | error e => rfl
  | ok p =>
    obtain ⟨a, o⟩ := p
    cases o with
    | none => rfl
    | some r => rfl

/-- The two sequential id-updates of one batch iteration collapse into a
single update by the per-element transformation. -/
theorem runBatchStep_eq (env : BatchEnv) (img : ImageFile)
    (state : List ImageFile) :
    runBatchStep env img state =
      updateImageInList img.id (stepTrans env img) state := by
  cases hp : processBody env img with
  | error e =>
    simp only [runBatchStep, hp]
    rw [updateImageInList_comp img.id
      (fun x => { x with status := ImageStatus.optimizing }) _ state
      (fun x => rfl)]
    refine congrArg (fun F => updateImageInList img.id F state) ?_
    funext x
    simp only [stepTrans, hp]
  | ok p =>
    obtain ⟨a, o⟩ := p
    cases o with
    | none =>
      simp only [runBatchStep, hp]
      rw [updateImageInList_comp img.id
        (fun x => { x with status := ImageStatus.optimizing }) _ state
        (fun x => rfl)]
      refine congrArg (fun F => updateImageInList img.id F state) ?_
      funext x
      simp only [stepTrans, hp]
    | some r =>
      simp only [runBatchStep, hp]
      rw [updateImageInList_comp img.id
        (fun x => { x with status := ImageStatus.optimizing }) _ state
        (fun x => rfl)]
      refine congrArg (fun F => updateImageInList img.id F state) ?_
      funext x
      simp only [stepTrans, hp]

theorem runBatchAux_fst (env : BatchEnv) (total : ℕ) :
    ∀ (pairs : List (ℕ × ImageFile)) (state : List ImageFile),
      (runBatchAux env total pairs state).1 =
        runBatchFold env (pairs.map Prod.snd) state := by
  intro pairs
  induction pairs with
  | nil => intro state; rfl
  | cons p rest ih =>
    intro state
    simp only [runBatchAux, runBatchFold, List.map_cons, List.foldl_cons]
    exact ih _

theorem runBatchAux_snd (env : BatchEnv) (total : ℕ) :
    ∀ (pairs : List (ℕ × ImageFile)) (state : List ImageFile),
      (runBatchAux env total pairs state).2 =
        pairs.map (fun p => (((p.1 : ℚ) + 1) / (total : ℚ)) * 100) := by
  intro pairs
  induction pairs with
  | nil => intro state; rfl
  | cons p rest ih =>
    intro state
    simp only [runBatchAux, List.map_cons]
    rw [ih]

theorem runBatchFold_untouched (env : BatchEnv) :
    ∀ (imgs : List ImageFile) (a : ImageFile) (s : List ImageFile),
      (∀ i ∈ imgs, i.id ≠ a.id) →
      runBatchFold env imgs (a :: s) = a :: runBatchFold env imgs s := by
  intro imgs
  induction imgs with
  | nil => intro a s h; rfl
  | cons i is ih =>
    intro a s h
    have hstep : runBatchStep env i (a :: s) = a :: runBatchStep env i s := by
      rw [runBatchStep_eq, updateImageInList_cons,
        if_neg (fun he => h i (List.mem_cons_self i is) he.symm),
        ← runBatchStep_eq]
    calc runBatchFold env (i :: is) (a :: s)
        = runBatchFold env is (runBatchStep env i (a :: s)) := rfl
      _ = runBatchFold env is (a :: runBatchStep env i s) := by rw [hstep]
      _ = a :: runBatchFold env is (runBatchStep env i s) :=
          ih a _ (fun j hj => h j (List.mem_cons_of_mem i hj))
      _ = a :: runBatchFold env (i :: is) s := rfl

/-- With pairwise distinct ids, running the batch fold over its own
snapshot finalizes every item independently. -/
theorem runBatchFold_self (env : BatchEnv) :
    ∀ items : List ImageFile, (items.map ImageFile.id).Nodup →
      runBatchFold env items items = items.map (itemFinal env) := by
  intro items
  induction items with
  | nil => intro h; rfl
  | cons x xs ih =>
    intro hnd
    rw [List.map_cons, List.nodup_cons] at hnd
    obtain ⟨hx, hxs⟩ := hnd
    have hne : ∀ y ∈ xs, y.id ≠ x.id := by
      intro y hy he
      exact hx (he ▸ List.mem_map_of_mem ImageFile.id hy)
    have hstep : runBatchStep env x (x :: xs) = itemFinal env x :: xs := by
      rw [runBatchStep_eq, updateImageInList_cons, if_pos rfl,
        updateImageInList_not_mem _ _ _ hne]
      rfl
    have hid : (itemFinal env x).id = x.id := stepTrans_id env x x
    calc runBatchFold env (x :: xs) (x :: xs)
        = runBatchFold env xs (runBatchStep env x (x :: xs)) := rfl
      _ = runBatchFold env xs (itemFinal env x :: xs) := by rw [hstep]
      _ = itemFinal env x :: runBatchFold env xs xs :=
          runBatchFold_untouched env xs _ xs
            (fun i hi => by rw [hid]; exact hne i hi)
      _ = itemFinal env x :: xs.map (itemFinal env) := by rw [ih hxs]
      _ = (x :: xs).map (itemFinal env) := rfl

/-- Pointwise characterization of the final queue state. -/
theorem applyAutoToBatch_fst (env : BatchEnv) (items : List ImageFile)
    (hnd : (items.map ImageFile.id).Nodup) :
    (applyAutoToBatch env items).1 = items.map (itemFinal env) := by
  unfold applyAutoToBatch
  rw [runBatchAux_fst, List.enum_map_snd]
  exact runBatchFold_self env items hnd

/-- The progress report stream is exactly the `((i+1)/N)*100` sequence. -/
theorem applyAutoToBatch_snd (env : BatchEnv) (items : List ImageFile) :
    (applyAutoToBatch env items).2 =
      (List.range items.length).map
        (fun i : ℕ => (((i : ℚ) + 1) / (items.length : ℚ)) * 100) := by
  unfold applyAutoToBatch
  rw [runBatchAux_snd]
  have hcomp : (fun p : ℕ × ImageFile =>
      (((p.1 : ℚ) + 1) / (items.length : ℚ)) * 100) =
      (fun i : ℕ => (((i : ℚ) + 1) / (items.length : ℚ)) * 100) ∘
        Prod.fst := rfl
  rw [hcomp, ← List.map_map, List.enum_map_fst]

theorem applyAutoToBatch_length (env : BatchEnv) (items : List ImageFile)
    (hnd : (items.map ImageFile.id).Nodup) :
    (applyAutoToBatch env items).1.length = items.length := by
  rw [applyAutoToBatch_fst env items hnd, List.length_map]

/-- C6: over a non-empty queue of `N` items the batch driver emits
exactly `N` progress reports, one after each item regardless of its
outcome, the `i`-th (1-based) equal to `(i / N) * 100`, so the sequence
strictly increases from `(1 / N) * 100` to `100`. -/
theorem runBatch_progress_reports (env : BatchEnv) (items : List ImageFile)
    (hne : items ≠ []) :
    (applyAutoToBatch env items).2.length = items.length ∧
    (∀ i (hi : i < (applyAutoToBatch env items).2.length),
      (applyAutoToBatch env items).2.get ⟨i, hi⟩ =
        (((i : ℚ) + 1) / (items.length : ℚ)) * 100) ∧
    (∀ i j (hi : i < (applyAutoToBatch env items).2.length)
      (hj : j < (applyAutoToBatch env items).2.length), i < j →
      (applyAutoToBatch env items).2.get ⟨i, hi⟩ <
        (applyAutoToBatch env items).2.get ⟨j, hj⟩) ∧
    (∀ h0 : 0 < (applyAutoToBatch env items).2.length,
      (applyAutoToBatch env items).2.get ⟨0, h0⟩ =
        (1 / (items.length : ℚ)) * 100) ∧
    (∀ hl : items.length - 1 < (applyAutoToBatch env items).2.length,
      (applyAutoToBatch env items).2.get ⟨items.length - 1, hl⟩ = 100) := by
  have hN : 0 < items.length := List.length_pos.2 hne
  have hNQ : (0 : ℚ) < (items.length : ℚ) := by exact_mod_cast hN
  have hlen : (applyAutoToBatch env items).2.length = items.length := by
    rw [applyAutoToBatch_snd, List.length_map, List.length_range]
  have hget : ∀ i (hi : i < (applyAutoToBatch env items).2.length),
      (applyAutoToBatch env items).2.get ⟨i, hi⟩ =
        (((i : ℚ) + 1) / (items.length : ℚ)) * 100 := by
    intro i hi
    simp only [List.get_eq_getElem, applyAutoToBatch_snd env items,
      List.getElem_map, List.getElem_range]
  refine ⟨hlen, hget, ?_, ?_, ?_⟩
  · intro i j hi hj hij
    rw [hget i hi, hget j hj]
    have h1 : (i : ℚ) + 1 < (j : ℚ) + 1 := by
      exact_mod_cast Nat.add_lt_add_right hij 1
    exact mul_lt_mul_of_pos_right ((div_lt_div_iff_of_pos_right hNQ).2 h1) (by norm_num)
  · intro h0
    rw [hget 0 h0]
    norm_num
  · intro hl
    rw [hget _ hl]
    have hc : ((items.length - 1 : ℕ) : ℚ) + 1 = (items.length : ℚ) := by
      rw [Nat.cast_sub hN]
      ring
    rw [hc, div_self (ne_of_gt hNQ)]
    norm_num

/-- Witness for C6: a single-item batch emits one report. -/
theorem runBatch_progress_reports_witness :
    (applyAutoToBatch wEnvOk [wItem1]).2.length =
      ([wItem1] : List ImageFile).length :=
  (runBatch_progress_reports wEnvOk [wItem1] (by simp)).1

theorem itemFinal_congr (env env2 : BatchEnv) (x : ImageFile)
    (h : processBody env2 x = processBody env x) :
    itemFinal env2 x = itemFinal env x := by
  unfold itemFinal stepTrans
  rw [h]

/-- C7: if processing an item fails — the search returns NotFound or a
collaborator throws — that item's status becomes Error, and every other
item's final state is exactly what it would have been under any
environment that processes the other items identically: the batch
continues undisturbed. -/
theorem batch_continues_after_item_failure (env env2 : BatchEnv)
    (items : List ImageFile) (k : ℕ)
    (hnd : (items.map ImageFile.id).Nodup) (hk : k < items.length)
    (hfail : ∀ (a : AIAnalysis) (r : CompressionResult),
      processBody env (items.get ⟨k, hk⟩) ≠ .ok (a, some r))
    (hagree : ∀ j (hj : j < items.length), j ≠ k →
      processBody env2 (items.get ⟨j, hj⟩) =
        processBody env (items.get ⟨j, hj⟩)) :
    (∀ hk2 : k < (applyAutoToBatch env items).1.length,
      ((applyAutoToBatch env items).1.get ⟨k, hk2⟩).status = .error) ∧
    (∀ j (h1 : j < (applyAutoToBatch env items).1.length)
      (h2 : j < (applyAutoToBatch env2 items).1.length), j ≠ k →
      (applyAutoToBatch env items).1.get ⟨j, h1⟩ =
        (applyAutoToBatch env2 items).1.get ⟨j, h2⟩) := by
  constructor
  · intro hk2
    simp only [List.get_eq_getElem, applyAutoToBatch_fst env items hnd,
      List.getElem_map]
    unfold itemFinal stepTrans
    cases hp : processBody env (items.get ⟨k, hk⟩) with
    | error e => rfl
    | ok p =>
      obtain ⟨a, o⟩ := p
      cases o with
      | none => rfl
      | some r => exact absurd hp (hfail a r)
  · intro j h1 h2 hne
    simp only [List.get_eq_getElem, applyAutoToBatch_fst env items hnd,
      applyAutoToBatch_fst env2 items hnd, List.getElem_map]
    have hj : j < items.length := by
      rw [applyAutoToBatch_length env items hnd] at h1
      exact h1
    exact (itemFinal_congr env env2 (items.get ⟨j, hj⟩)
      (hagree j hj hne)).symm

/-- Witness for C7: with the base64 read failing for item 0 only, item 0
errors and item 1 finishes exactly as under the fully healthy
environment. -/
theorem batch_continues_after_item_failure_witness :
    ((applyAutoToBatch wEnvFail [wItem0, wItem1]).1.get
      ⟨0, by decide⟩).status = ImageStatus.error ∧
    (applyAutoToBatch wEnvFail [wItem0, wItem1]).1.get ⟨1, by decide⟩ =
      (applyAutoToBatch wEnvOk [wItem0, wItem1]).1.get ⟨1, by decide⟩ :=
  ⟨(batch_continues_after_item_failure wEnvFail wEnvOk [wItem0, wItem1] 0
      (by decide) (by decide)
      (fun a r h => by
        have h2 : (Except.error () :
            Except Unit (AIAnalysis × Option CompressionResult)) =
            .ok (a, some r) := h
        exact Except.noConfusion h2)
      (by
        intro j hj hne
        cases j with
        | zero => exact absurd rfl hne
        | succ n =>
          cases n with
          | zero => rfl
          | succ m =>
            exact absurd hj (by
              have hlen2 : ([wItem0, wItem1] : List ImageFile).length = 2 :=
                rfl
              omega))).1 (by decide),
   (batch_continues_after_item_failure wEnvFail wEnvOk [wItem0, wItem1] 0
      (by decide) (by decide)
      (fun a r h => by
        have h2 : (Except.error () :
            Except Unit (AIAnalysis × Option CompressionResult)) =
            .ok (a, some r) := h
        exact Except.noConfusion h2)
      (by
        intro j hj hne
        cases j with
        | zero => exact absurd rfl hne
        | succ n =>
          cases n with
          | zero => rfl
          | succ m =>
            exact absurd hj (by
              have hlen2 : ([wItem0, wItem1] : List ImageFile).length = 2 :=
                rfl
              omega))).2 1 (by decide)
     (by decide) (by decide)⟩

/-- C8 (amended): after the batch completes every processed item is
either Completed with a result attached, or Error with its `result`
field left exactly as it was before the batch — in particular the batch
never attaches a result on Error, but it also does not clear a
pre-existing one. -/
theorem batch_terminal_states (env : BatchEnv) (items : List ImageFile)
    (hnd : (items.map ImageFile.id).Nodup) :
    ∀ j (h1 : j < (applyAutoToBatch env items).1.length)
      (h0 : j < items.length),
      (((applyAutoToBatch env items).1.get ⟨j, h1⟩).status = .completed ∧
        ((applyAutoToBatch env items).1.get ⟨j, h1⟩).result.isSome = true) ∨
      (((applyAutoToBatch env items).1.get ⟨j, h1⟩).status = .error ∧
        ((applyAutoToBatch env items).1.get ⟨j, h1⟩).result =
          (items.get ⟨j, h0⟩).result) := by
  intro j h1 h0
  simp only [List.get_eq_getElem, applyAutoToBatch_fst env items hnd,
    List.getElem_map]
  unfold itemFinal stepTrans
  cases hp : processBody env (items[j] : ImageFile) with
  | error e => exact Or.inr ⟨rfl, rfl⟩
  | ok p =>
    obtain ⟨a, o⟩ := p
    cases o with
    | none => exact Or.inr ⟨rfl, rfl⟩
    | some r => exact Or.inl ⟨rfl, rfl⟩

/-- Witness for C8 (amended) on the counterexample fixture: the failing
item ends in Error with its pre-existing result untouched. -/
theorem batch_terminal_states_witness :
    (((applyAutoToBatch cexEnv [cexItem]).1.get
        ⟨0, by decide⟩).status = ImageStatus.completed ∧
      ((applyAutoToBatch cexEnv [cexItem]).1.get
        ⟨0, by decide⟩).result.isSome = true) ∨
    (((applyAutoToBatch cexEnv [cexItem]).1.get
        ⟨0, by decide⟩).status = ImageStatus.error ∧
      ((applyAutoToBatch cexEnv [cexItem]).1.get ⟨0, by decide⟩).result =
        (([cexItem] : List ImageFile).get ⟨0, by decide⟩).result) :=
  batch_terminal_states cexEnv [cexItem] (by decide) 0 (by decide) (by decide)

/-- Counterexample to C8 as stated: an item that enters the batch with a
result already attached (left by the manual/live-preview path) and then
fails ends in Error with that result still attached, not in
"Error with no result". -/
theorem batch_error_keeps_result_counterexample :
    ¬ (∀ x ∈ (applyAutoToBatch cexEnv [cexItem]).1,
        (x.status = ImageStatus.completed ∧ x.result.isSome = true) ∨
        (x.status = ImageStatus.error ∧ x.result = none)) := by
  decide

/-- C9: an Analyzer failure is absorbed inside `analyzeImage`: the
caller receives the hard-coded default analysis (quality 75, webp,
full-frame crop, complexity 5), the search controller still runs with
that default, and the item's outcome is exactly the search outcome — no
analysis error propagates to the batch. -/
theorem analyzer_failure_absorbed (env : BatchEnv) (img : ImageFile)
    (b64 : String)
    (hraw : env.analyzerRaw b64 img.type = .error ())
    (hnoc : img.analysis = none)
    (hb64 : env.fileToBase64 img = .ok b64) :
    analyzeImage env.analyzerRaw b64 img.type = defaultAnalysis ∧
    defaultAnalysis.recommendedQuality = 75 ∧
    defaultAnalysis.suggestedFormat = "webp" ∧
    defaultAnalysis.smartCropSuggestion = some ⟨0, 0, 100, 100⟩ ∧
    defaultAnalysis.complexityScore = 5 ∧
    processBody env img =
      (match iterativeCompressToTarget env.enc img defaultAnalysis
          targetLimit with
        | .error e => .error e
        | .ok tr => .ok (defaultAnalysis, tr.result)) := by
  have hana : analyzeImage env.analyzerRaw b64 img.type = defaultAnalysis := by
    unfold analyzeImage
    rw [hraw]
  refine ⟨hana, rfl, rfl, rfl, rfl, ?_⟩
  simp only [processBody, hnoc, hb64, hana]

/-- Witness for C9 at a concrete failing Analyzer. -/
theorem analyzer_failure_absorbed_witness :
    analyzeImage wEnvNoAI.analyzerRaw "b64" wImg.type = defaultAnalysis ∧
    defaultAnalysis.recommendedQuality = 75 ∧
    defaultAnalysis.suggestedFormat = "webp" ∧
    defaultAnalysis.smartCropSuggestion = some ⟨0, 0, 100, 100⟩ ∧
    defaultAnalysis.complexityScore = 5 ∧
    processBody wEnvNoAI wImg =
      (match iterativeCompressToTarget wEnvNoAI.enc wImg defaultAnalysis
          targetLimit with
        | .error e => .error e
        | .ok tr => .ok (defaultAnalysis, tr.result)) :=
  analyzer_failure_absorbed wEnvNoAI wImg "b64" rfl rfl rfl

/-- C10: a `compressImage` call with format `image/avif` behaves exactly
as one with `image/webp` — the blob is encoded as webp and the stored
format field reads WEBP — and a search whose analysis suggests avif
never yields an avif-labelled result. -/
theorem avif_encoded_as_webp (enc : Encoder) (p : String) (w h q : ℕ)
    (d : ℕ) (tw th : Option ℤ) (c : Option CropArea) (s : Bool) :
    compressImage enc p w h q "image/avif" d tw th c s =
      compressImage enc p w h q "image/webp" d tw th c s ∧
    (∀ r, compressImage enc p w h q "image/avif" d tw th c s = .ok r →
      r.format = "WEBP") ∧
    (∀ (img : ImageFile) (analysis : AIAnalysis) (target : ℕ)
      (tr : SearchTrace) (r : CompressionResult),
      analysis.suggestedFormat = "avif" →
      iterativeCompressToTarget enc img analysis target = .ok tr →
      tr.result = some r → r.format = "WEBP") := by
  refine ⟨rfl, ?_, ?_⟩
  · intro r hr
    rw [compressImage_ok_format enc p w h q "image/avif" d tw th c s r hr]
    rfl
  · intro img analysis target tr r hfmt h hres
    have hsf : searchFmt analysis = "image/avif" := by
      unfold searchFmt
      rw [hfmt]
      rfl
    obtain ⟨b1, t1, hs1, -, hrest⟩ :=
      search_ok_cases enc img analysis target tr h
    have hf1 := stage1_ok_format enc img analysis.smartCropSuggestion
      (searchFmt analysis) target 86 5 90 none b1 t1 hs1 (by simp)
    have hlab : formatLabel (exportOf (searchFmt analysis)) = "WEBP" := by
      rw [hsf]
      rfl
    rcases hrest with ⟨r2, hb, -, htr⟩ | ⟨-, t2, hs2, -⟩
    · subst htr
      simp only at hres
      rw [← hlab]
      exact hf1 r hres
    · rw [← hlab]
      exact stage2_ok_format enc img analysis.smartCropSuggestion
        (searchFmt analysis) target 8 (1 / 20) (19 / 20) b1 tr.result t2
        hs2 hf1 r hres

/-- Witness for C10: a direct avif call and an avif-suggesting search
both yield WEBP-labelled results. -/
theorem avif_encoded_as_webp_witness :
    wResCmp.format = "WEBP" ∧ wResAvif.format = "WEBP" :=
  ⟨(avif_encoded_as_webp wEncQ "p" 10 10 50 85 none none none true).2.1
      wResCmp rfl,
   (avif_encoded_as_webp wEncQ "p" 10 10 50 85 none none none true).2.2
      wImg wAnalysisAvif 500 wTrAvif wResAvif rfl rfl rfl⟩

end OptiGen
